import Mathlib

/-!
# Verification of the RexBot call-routing and WebRTC-signaling relay

Shallow embedding of the socket.io server (`server.js`, the main variant) and
the `Call` mongoose model.  The server keeps two in-memory maps
(`connectedUsers`, `waitingCalls`), a MongoDB collection of calls, and a set of
demo-mode maps used when the database is unreachable.  We model:

* the call collection as an insertion-ordered list of `CallRec` (MongoDB
  ObjectIds become `Nat`, freshly allocated as the current list length;
  `Date` values become `Nat` milliseconds, supplied to each handler as `now`);
* the socket.io maps as association lists keyed by socket id (`Nat`), with
  JavaScript `Map.set` / `Map.delete` semantics;
* each `socket.on(...)` handler as a function
  `ServerState → inputs → ServerState × List Msg` where the returned list
  records the `socket.emit` / `io.to(..).emit` / `io.emit` calls in program
  order.

Out of model (not referenced by any call-routing behaviour): the bcrypt
password comparison inside `staff-login` (we model the successful-credential
path; a wrong password behaves like an unknown user), the `Conversation`
documents, the `User.isAvailable`/`lastActive` bookkeeping and the
`updatedAt` pre-save hook (no handler reads them).
-/

namespace RexBot

/-- Lifecycle status of a call: the `status` enum of the Call schema
(`['waiting', 'in-progress', 'completed', 'rejected']`). -/
inductive Status
  | waiting
  | inProgress
  | completed
  | rejected
deriving DecidableEq, Repr

/-- Decision outcome: the `decision` enum of the Call schema
(`['accepted', 'rejected', 'pending']`, default `pending`). -/
inductive Decision
  | accepted
  | rejected
  | pending
deriving DecidableEq, Repr

/-- Role of a user as used by the server: visitors are created with role
`'client'` by `start-conversation`; `staff-login` and the `accept-call` /
`call-decision` guards test for `'staff'`. -/
inductive Role
  | client
  | staff
deriving DecidableEq, Repr

/-- A User document (the fields the call-routing handlers read). -/
structure UserRec where
  uid : Nat
  name : String
  email : String
  role : Role
  department : String
deriving DecidableEq, Repr

/-- A Call document (Call schema fields used by the server). -/
structure CallRec where
  id : Nat
  clientId : Nat
  purpose : String
  status : Status
  staffId : Option Nat
  startTime : Option Nat
  endTime : Option Nat
  duration : Option Nat
  decision : Decision
  notes : Option String
  createdAt : Nat
deriving DecidableEq, Repr

/-- Socket.io events emitted by the call-routing handlers, with their
payloads. -/
inductive Event
  | newCallRequest (callId : Nat) (clientName : String) (purpose : String) (timestamp : Nat)
  | conversationStarted (sessionId : Nat) (callId : Nat) (name : String) (purpose : String)
  | callAccepted (staffName : String) (staffDepartment : String)
  | callStarted (callId : Nat) (clientId : Nat)
  | offerFwd (payload : String) (sender : Nat)
  | answerFwd (payload : String) (sender : Nat)
  | iceCandidateFwd (payload : String) (sender : Nat)
  | callCompleted (decision : Decision) (notes : String)
  | decisionSaved (callId : Nat) (decision : Decision)
  | loginSuccess (uid : Nat) (name : String) (department : String)
  | loginError (message : String)
  | waitingCount (count : Nat)
  | errorMsg (message : String)
deriving DecidableEq, Repr

/-- An outbound emission: `io.to(target).emit` / `socket.emit` become
`toSocket`, `io.emit` (every connected socket) becomes `broadcast`. -/
inductive Msg
  | toSocket (target : Nat) (ev : Event)
  | broadcast (ev : Event)
deriving DecidableEq, Repr

/-- The server's mutable state: the two socket.io maps, the Call collection,
the User collection, the demo-mode call map, and the set of live transport
connections (used only to decide who a message reaches). -/
structure ServerState where
  connectedUsers : List (Nat × UserRec)
  waitingCalls : List (Nat × CallRec)
  calls : List CallRec
  users : List UserRec
  demoCalls : List (Nat × CallRec)
  liveSockets : List Nat
deriving DecidableEq, Repr

/-- `Map.get`: the binding for key `k`, if any. -/
def lookupKey (l : List (Nat × α)) (k : Nat) : Option α :=
  (l.find? (fun p => p.1 == k)).map (·.2)

/-- `Map.set`: replace the binding in place when the key exists, append
otherwise (JavaScript `Map` preserves insertion order). -/
def setKey (l : List (Nat × α)) (k : Nat) (v : α) : List (Nat × α) :=
  if (l.find? (fun p => p.1 == k)).isSome then
    l.map (fun p => if p.1 == k then (k, v) else p)
  else
    l ++ [(k, v)]

/-- `Map.delete`. -/
def eraseKey (l : List (Nat × α)) (k : Nat) : List (Nat × α) :=
  l.filter (fun p => p.1 != k)

/-- `Call.findById`. -/
def findCall (calls : List CallRec) (cid : Nat) : Option CallRec :=
  calls.find? (fun c => c.id == cid)

/-- `call.save()` on an existing document: overwrite the collection record
having the document's id with the document's current field values. -/
def saveCall (calls : List CallRec) (c : CallRec) : List CallRec :=
  calls.map (fun d => if d.id == c.id then c else d)

/-- Who a given emission reaches: an `io.emit` broadcast reaches every live
socket; `io.to(t).emit` / `socket.emit` reaches `t` when it is live. -/
def receives (live : List Nat) (m : Msg) (sid : Nat) : Bool :=
  match m with
  | Msg.broadcast _ => live.contains sid
  | Msg.toSocket t _ => t == sid && live.contains t

/-- A new transport connection (`io.on('connection')`). -/
def connectSocket (s : ServerState) (sid : Nat) : ServerState :=
  { s with liveSockets := s.liveSockets ++ [sid] }

/-- `socket.on('staff-login')`, successful-credential path: look up a staff
user by email (`User.findOne({email, role: 'staff'})`), register the socket in
`connectedUsers`, emit `login-success` and the waiting-call count.  The bcrypt
comparison is abstracted: a wrong password takes the same `login-error` branch
as an unknown user. -/
def staffLogin (s : ServerState) (sid : Nat) (email : String) : ServerState × List Msg :=
  match s.users.find? (fun u => u.email == email && u.role == Role.staff) with
  | none => (s, [Msg.toSocket sid (Event.loginError "Invalid credentials")])
  | some user =>
    ({ s with connectedUsers := setKey s.connectedUsers sid user },
     [Msg.toSocket sid (Event.loginSuccess user.uid user.name user.department),
      Msg.toSocket sid (Event.waitingCount
        (s.calls.filter (fun c => c.status == Status.waiting)).length)])

/-- `socket.on('start-conversation')`, MongoDB path
(`mongoose.connection.readyState === 1`): find or create the client user, then
save a new `waiting` call (the Call schema marks `purpose` required, so
`call.save()` rejects a missing or empty purpose; the handler's catch block
then emits a generic error — the user document created just before survives),
record the visitor in `waitingCalls` and `connectedUsers`, broadcast
`new-call-request` to everyone (`io.emit`), and confirm to the visitor. -/
def startConversation (s : ServerState) (sid : Nat) (name email purpose : String)
    (now : Nat) : ServerState × List Msg :=
  let found := s.users.find? (fun u => u.email == email)
  let newUser : UserRec :=
    { uid := s.users.length, name := name, email := email,
      role := Role.client, department := "" }
  let user := found.getD newUser
  let users' := match found with
    | some _ => s.users
    | none => s.users ++ [newUser]
  if purpose = "" then
    ({ s with users := users' },
     [Msg.toSocket sid (Event.errorMsg "Failed to start conversation")])
  else
    let call : CallRec :=
      { id := s.calls.length, clientId := user.uid, purpose := purpose,
        status := Status.waiting, staffId := none, startTime := none,
        endTime := none, duration := none, decision := Decision.pending,
        notes := none, createdAt := now }
    ({ s with
        users := users', calls := s.calls ++ [call],
        waitingCalls := setKey s.waitingCalls sid call,
        connectedUsers := setKey s.connectedUsers sid user },
     [Msg.broadcast (Event.newCallRequest call.id name purpose now),
      Msg.toSocket sid (Event.conversationStarted sid call.id name purpose)])

/-- `socket.on('start-conversation')`, demo path (database unreachable): no
schema validation runs; a demo user and demo call (ids derived from
`Date.now()`) are stored in the demo maps, `new-call-request` is broadcast,
and the visitor is confirmed.  `waitingCalls` and the Call collection are not
touched. -/
def demoStartConversation (s : ServerState) (sid : Nat) (name email purpose : String)
    (now : Nat) : ServerState × List Msg :=
  let demoUser : UserRec :=
    { uid := now, name := name, email := email, role := Role.client, department := "" }
  let demoCall : CallRec :=
    { id := now, clientId := now, purpose := purpose, status := Status.waiting,
      staffId := none, startTime := none, endTime := none, duration := none,
      decision := Decision.pending, notes := none, createdAt := now }
  ({ s with
      demoCalls := setKey s.demoCalls sid demoCall,
      connectedUsers := setKey s.connectedUsers sid demoUser },
   [Msg.broadcast (Event.newCallRequest demoCall.id name purpose now),
    Msg.toSocket sid (Event.conversationStarted sid demoCall.id name purpose)])

/-- `socket.on('accept-call')`: silently return unless the socket is a
registered staff connection and the call exists with status `waiting`;
otherwise bind the staff user, move the call to `in-progress`, stamp
`startTime`, save, notify the visitor found in `waitingCalls` (dropping that
entry), and confirm `call-started` to the staff socket. -/
def acceptCall (s : ServerState) (sid : Nat) (callId : Nat) (now : Nat) :
    ServerState × List Msg :=
  match lookupKey s.connectedUsers sid with
  | none => (s, [])
  | some staffUser =>
    if staffUser.role ≠ Role.staff then (s, [])
    else
      match findCall s.calls callId with
      | none => (s, [])
      | some call =>
        if call.status ≠ Status.waiting then (s, [])
        else
          let call' := { call with
                         staffId := some staffUser.uid,
                         status := Status.inProgress, startTime := some now }
          let calls' := saveCall s.calls call'
          match s.waitingCalls.find? (fun p => p.2.id == callId) with
          | some entry =>
            ({ s with
                calls := calls',
                waitingCalls := eraseKey s.waitingCalls entry.1 },
             [Msg.toSocket entry.1
                (Event.callAccepted staffUser.name staffUser.department),
              Msg.toSocket sid (Event.callStarted callId call.clientId)])
          | none =>
            ({ s with calls := calls' },
             [Msg.toSocket sid (Event.callStarted callId call.clientId)])

/-- `socket.on('call-decision')`: silently return unless the socket is a
registered staff connection and the call exists; on a call with no bound
staff, `call.staffId.toString()` throws and the catch block emits a generic
error; when the bound staff id differs from the caller's, silently return;
otherwise — with no check of the call's status — mark it `completed`, stamp
`endTime`, store decision and notes, compute
`duration = Math.floor((endTime - startTime) / 1000)` seconds, save, notify
the client if connected, and confirm `decision-saved`. -/
def callDecision (s : ServerState) (sid : Nat) (callId : Nat)
    (decision : Decision) (notes : String) (now : Nat) : ServerState × List Msg :=
  match lookupKey s.connectedUsers sid with
  | none => (s, [])
  | some staffUser =>
    if staffUser.role ≠ Role.staff then (s, [])
    else
      match findCall s.calls callId with
      | none => (s, [])
      | some call =>
        match call.staffId with
        | none => (s, [Msg.toSocket sid (Event.errorMsg "Failed to save decision")])
        | some ownerId =>
          if ownerId ≠ staffUser.uid then (s, [])
          else
            let call' := { call with
                           status := Status.completed,
                           endTime := some now, decision := decision,
                           notes := some notes,
                           duration := call.startTime.map (fun st => (now - st) / 1000) }
            let calls' := saveCall s.calls call'
            let clientMsgs :=
              match s.connectedUsers.find? (fun p => p.2.uid == call.clientId) with
              | some entry => [Msg.toSocket entry.1 (Event.callCompleted decision notes)]
              | none => []
            ({ s with calls := calls' },
             clientMsgs ++ [Msg.toSocket sid (Event.decisionSaved callId decision)])

/-- `socket.on('offer')`: forward to the stated target unconditionally,
attaching the sender's socket id as `from`. -/
def onOffer (s : ServerState) (sid : Nat) (target : Nat) (payload : String) :
    ServerState × List Msg :=
  (s, [Msg.toSocket target (Event.offerFwd payload sid)])

/-- `socket.on('answer')`: forward to the stated target unconditionally. -/
def onAnswer (s : ServerState) (sid : Nat) (target : Nat) (payload : String) :
    ServerState × List Msg :=
  (s, [Msg.toSocket target (Event.answerFwd payload sid)])

/-- `socket.on('ice-candidate')`: forward to the stated target
unconditionally. -/
def onIceCandidate (s : ServerState) (sid : Nat) (target : Nat) (payload : String) :
    ServerState × List Msg :=
  (s, [Msg.toSocket target (Event.iceCandidateFwd payload sid)])

/-- `socket.on('disconnect')`: drop the socket from `connectedUsers`; if it
holds a `waitingCalls` entry, save that document with status set to
`rejected` (overwriting the collection record wholesale, as `call.save()`
does on the stored document) and drop the entry.  No message is emitted.  The
`isAvailable`/`lastActive` update for staff users touches only User fields no
handler reads and is omitted. -/
def disconnectSocket (s : ServerState) (sid : Nat) : ServerState × List Msg :=
  let s1 := { s with
              connectedUsers := eraseKey s.connectedUsers sid,
              liveSockets := s.liveSockets.filter (fun x => x != sid) }
  match lookupKey s.waitingCalls sid with
  | some call =>
    ({ s1 with
        calls := saveCall s1.calls { call with status := Status.rejected },
        waitingCalls := eraseKey s1.waitingCalls sid }, [])
  | none => (s1, [])

/-- Ordering by creation time ascending: the `{createdAt: 1}` sort key of the
waiting-calls query. -/
def callLE (a b : CallRec) : Prop := a.createdAt ≤ b.createdAt

instance : DecidableRel callLE := fun a b => Nat.decLe a.createdAt b.createdAt

instance : IsTotal CallRec callLE := ⟨fun a b => Nat.le_total a.createdAt b.createdAt⟩

instance : IsTrans CallRec callLE := ⟨fun _ _ _ h₁ h₂ => Nat.le_trans h₁ h₂⟩

/-- `GET /api/calls/waiting`:
`Call.find({status: 'waiting'}).sort({createdAt: 1})`. -/
def listWaiting (s : ServerState) : List CallRec :=
  (s.calls.filter (fun c => c.status == Status.waiting)).insertionSort callLE

/-- One client-visible action against the server. -/
inductive Act
  | connect (sid : Nat)
  | login (sid : Nat) (email : String)
  | startConv (sid : Nat) (name email purpose : String) (now : Nat)
  | demoStartConv (sid : Nat) (name email purpose : String) (now : Nat)
  | accept (sid : Nat) (callId : Nat) (now : Nat)
  | decide (sid : Nat) (callId : Nat) (d : Decision) (notes : String) (now : Nat)
  | offer (sid : Nat) (target : Nat) (payload : String)
  | answer (sid : Nat) (target : Nat) (payload : String)
  | ice (sid : Nat) (target : Nat) (payload : String)
  | leave (sid : Nat)
deriving DecidableEq, Repr

/-- Dispatch one action to its handler. -/
def applyAct (s : ServerState) : Act → ServerState × List Msg
  | Act.connect sid => (connectSocket s sid, [])
  | Act.login sid email => staffLogin s sid email
  | Act.startConv sid name email purpose now => startConversation s sid name email purpose now
  | Act.demoStartConv sid name email purpose now => demoStartConversation s sid name email purpose now
  | Act.accept sid callId now => acceptCall s sid callId now
  | Act.decide sid callId d notes now => callDecision s sid callId d notes now
  | Act.offer sid target payload => onOffer s sid target payload
  | Act.answer sid target payload => onAnswer s sid target payload
  | Act.ice sid target payload => onIceCandidate s sid target payload
  | Act.leave sid => disconnectSocket s sid

/-- Run a sequence of actions, keeping only the final state. -/
def run (s : ServerState) (acts : List Act) : ServerState :=
  acts.foldl (fun s a => (applyAct s a).1) s

/-- Server start: empty maps and an empty Call collection; the User
collection may hold pre-registered accounts. -/
def initState (users0 : List UserRec) : ServerState :=
  { connectedUsers := [], waitingCalls := [], calls := [],
    users := users0, demoCalls := [], liveSockets := [] }

/-- States the server can actually be in. -/
def Reachable (s : ServerState) : Prop :=
  ∃ users0 acts, s = run (initState users0) acts

/-- Several staff sockets issue `accept-call` for the same call, one after the
other (the single-threaded event loop serialises any concurrent attempts in
some arrival order); returns the final state and each socket's emissions. -/
def acceptRound (cid now : Nat) : ServerState → List Nat → ServerState × List (List Msg)
  | s, [] => (s, [])
  | s, sid :: rest =>
    let r := acceptCall s sid cid now
    let r' := acceptRound cid now r.1 rest
    (r'.1, r.2 :: r'.2)

/-- Internal consistency of the server state, holding in every reachable
state: call ids are `0, 1, …` in creation order; each `waitingCalls` document
denotes a call whose collection record is still `waiting`; no two
`waitingCalls` entries share a socket key or denote the same call; and a
`waiting` record has no bound staff. -/
def Inv (s : ServerState) : Prop :=
  s.calls.map CallRec.id = List.range s.calls.length ∧
  (∀ p ∈ s.waitingCalls, ∃ c ∈ s.calls, c.id = p.2.id ∧ c.status = Status.waiting) ∧
  (s.waitingCalls.map (fun p : Nat × CallRec => p.1)).Nodup ∧
  (s.waitingCalls.map (fun p : Nat × CallRec => p.2.id)).Nodup ∧
  (∀ c ∈ s.calls, c.status = Status.waiting → c.staffId = none)

/-- The guard at the top of `accept-call` and `call-decision`: the socket is
in `connectedUsers` and its user's role is `'staff'`. -/
def isRegisteredStaff (s : ServerState) (sid : Nat) : Bool :=
  match lookupKey s.connectedUsers sid with
  | some u => u.role == Role.staff
  | none => false

/-- A staff user, a second staff user, a visitor and a waiting call, used to
instantiate the universally quantified theorems below at concrete inputs. -/
def staffA : UserRec :=
  { uid := 1, name := "Ann", email := "ann@x", role := Role.staff, department := "Sales" }

def staffB : UserRec :=
  { uid := 2, name := "Bob", email := "bob@x", role := Role.staff, department := "Ops" }

def visitorV : UserRec :=
  { uid := 0, name := "Vic", email := "vic@x", role := Role.client, department := "" }

def callW : CallRec :=
  { id := 0, clientId := 0, purpose := "Support", status := Status.waiting,
    staffId := none, startTime := none, endTime := none, duration := none,
    decision := Decision.pending, notes := none, createdAt := 50 }

/-- Two staff and one visitor connected; the visitor's call is waiting. -/
def exState1 : ServerState :=
  { connectedUsers := [(20, visitorV), (10, staffA), (11, staffB)],
    waitingCalls := [(20, callW)], calls := [callW],
    users := [visitorV, staffA, staffB], demoCalls := [],
    liveSockets := [20, 10, 11] }

/-- A call already completed by staff `1` (terminal state). -/
def callDone : CallRec :=
  { id := 0, clientId := 0, purpose := "Support", status := Status.completed,
    staffId := some 1, startTime := some 1000, endTime := some 2000,
    duration := some 1, decision := Decision.accepted, notes := some "ok",
    createdAt := 50 }

/-- A call in progress, bound to staff `1`, visitor no longer in
`waitingCalls` (the acceptance removed the entry). -/
def callInProg : CallRec :=
  { id := 0, clientId := 0, purpose := "Support", status := Status.inProgress,
    staffId := some 1, startTime := some 1000, endTime := none, duration := none,
    decision := Decision.pending, notes := none, createdAt := 50 }

/-- Only the owning staff connected; call 0 already completed. -/
def exState3 : ServerState :=
  { connectedUsers := [(10, staffA)], waitingCalls := [], calls := [callDone],
    users := [visitorV, staffA], demoCalls := [], liveSockets := [10] }

/-- Visitor and two staff connected; call 0 in progress, bound to staff 1. -/
def exState4 : ServerState :=
  { connectedUsers := [(20, visitorV), (10, staffA), (11, staffB)],
    waitingCalls := [], calls := [callInProg],
    users := [visitorV, staffA, staffB], demoCalls := [],
    liveSockets := [20, 10, 11] }

/-- One staff and one visitor registered; socket 30 is live but never
registered; no calls yet. -/
def exState5 : ServerState :=
  { connectedUsers := [(10, staffA), (20, visitorV)],
    waitingCalls := [], calls := [], users := [visitorV, staffA],
    demoCalls := [], liveSockets := [10, 20, 30] }

/-- A pre-registered staff account used to build a concrete reachable state. -/
def staffC : UserRec :=
  { uid := 0, name := "Cay", email := "cay@x", role := Role.staff,
    department := "Desk" }

/-- A concrete event trace: three visitors create calls 0, 1, 2 and the staff
accepts call 0, leaving it `in-progress` and calls 1 and 2 `waiting`. -/
def traceC9 : List Act :=
  [Act.connect 20, Act.connect 21, Act.connect 22, Act.connect 10,
   Act.login 10 "cay@x",
   Act.startConv 20 "Vic" "vic@x" "Help" 100,
   Act.startConv 21 "Wes" "wes@x" "Question" 200,
   Act.startConv 22 "Zoe" "zoe@x" "Hours" 250,
   Act.accept 10 0 300]

/-- The state reached by running `traceC9` from a fresh server. -/
def sC9 : ServerState := run (initState [staffC]) traceC9

/-- The record of call 0 in `sC9`: in progress, bound to `staffC`. -/
def callRec0 : CallRec :=
  { id := 0, clientId := 1, purpose := "Help", status := Status.inProgress,
    staffId := some 0, startTime := some 300, endTime := none, duration := none,
    decision := Decision.pending, notes := none, createdAt := 100 }

/-- The record of call 1 in `sC9`: still waiting. -/
def callRec1 : CallRec :=
  { id := 1, clientId := 2, purpose := "Question", status := Status.waiting,
    staffId := none, startTime := none, endTime := none, duration := none,
    decision := Decision.pending, notes := none, createdAt := 200 }

/-- The `waitingCalls` document of call 2 in `sC9`. -/
def callDoc2 : CallRec :=
  { id := 2, clientId := 3, purpose := "Hours", status := Status.waiting,
    staffId := none, startTime := none, endTime := none, duration := none,
    decision := Decision.pending, notes := none, createdAt := 250 }

/-! ## Basic facts about the map and collection operations -/

theorem mem_setKey {α : Type} {l : List (Nat × α)} {k : Nat} {v : α} {p : Nat × α}
    (h : p ∈ setKey l k v) : p = (k, v) ∨ p ∈ l := by
  unfold setKey at h
  split at h
  · rcases List.mem_map.1 h with ⟨q, hq, hfq⟩
    by_cases hk : (q.1 == k) = true
    · left; rw [if_pos hk] at hfq; exact hfq.symm
    · right; rw [if_neg hk] at hfq; exact hfq ▸ hq
  · rcases List.mem_append.1 h with h' | h'
    · right; exact h'
    · left; simpa using h'

theorem setKey_cons_ne {α : Type} {p : Nat × α} {t : List (Nat × α)} {k : Nat}
    {v : α} (h : p.1 ≠ k) : setKey (p :: t) k v = p :: setKey t k v := by
  have hb : (p.1 == k) = false := beq_eq_false_iff_ne.mpr h
  unfold setKey
  simp only [List.find?_cons, hb]
  split <;> simp_all [hb]

theorem setKey_cons_eq {α : Type} {p : Nat × α} {t : List (Nat × α)} {k : Nat}
    {v : α} (hk : p.1 = k) (hkeys : ∀ q ∈ t, q.1 ≠ k) :
    setKey (p :: t) k v = (k, v) :: t := by
  have hb : (p.1 == k) = true := beq_iff_eq.mpr hk
  unfold setKey
  simp only [List.find?_cons, hb, Option.isSome_some, if_true]
  simp only [List.map_cons, hb, if_true]
  congr 1
  have : ∀ q ∈ t, (if q.1 == k then (k, v) else q) = q := by
    intro q hq
    simp [beq_eq_false_iff_ne.mpr (hkeys q hq)]
  rw [List.map_congr_left this]
  exact List.map_id' t

theorem mem_saveCall {calls : List CallRec} {c d : CallRec}
    (h : d ∈ saveCall calls c) : d = c ∨ d ∈ calls := by
  unfold saveCall at h
  rcases List.mem_map.1 h with ⟨q, hq, hfq⟩
  by_cases hk : (q.id == c.id) = true
  · left; rw [if_pos hk] at hfq; exact hfq.symm
  · right; rw [if_neg hk] at hfq; exact hfq ▸ hq

theorem mem_saveCall_of_ne {calls : List CallRec} {c d : CallRec}
    (hd : d ∈ calls) (hne : d.id ≠ c.id) : d ∈ saveCall calls c := by
  unfold saveCall
  have hb : (d.id == c.id) = false := beq_eq_false_iff_ne.mpr hne
  have : (if d.id == c.id then c else d) = d := by rw [hb]; simp
  exact this ▸ List.mem_map_of_mem _ hd

theorem saveCall_map_id (calls : List CallRec) (c : CallRec) :
    (saveCall calls c).map CallRec.id = calls.map CallRec.id := by
  unfold saveCall
  rw [List.map_map]
  apply List.map_congr_left
  intro d _
  by_cases hk : (d.id == c.id) = true
  · simp only [Function.comp_apply, if_pos hk]
    exact (beq_iff_eq.mp hk).symm
  · simp only [Function.comp_apply, if_neg hk]

theorem saveCall_length (calls : List CallRec) (c : CallRec) :
    (saveCall calls c).length = calls.length := List.length_map _ _

theorem findCall_mem {calls : List CallRec} {cid : Nat} {c : CallRec}
    (h : findCall calls cid = some c) : c ∈ calls ∧ c.id = cid := by
  unfold findCall at h
  have h1 := List.mem_of_find?_eq_some h
  have h2 := List.find?_some h
  simp only [beq_iff_eq] at h2
  exact ⟨h1, h2⟩

theorem findCall_saveCall_self {calls : List CallRec} {cid : Nat} {c c' : CallRec}
    (h : findCall calls cid = some c) (hid : c'.id = cid) :
    findCall (saveCall calls c') cid = some c' := by
  unfold findCall at h ⊢
  unfold saveCall
  induction calls with
  | nil => simp at h
  | cons d t ih =>
    rw [List.map_cons]
    by_cases hd : d.id = cid
    · have hc : (d.id == c'.id) = true := beq_iff_eq.mpr (by rw [hd, hid])
      rw [if_pos hc]
      exact List.find?_cons_of_pos _ (beq_iff_eq.mpr hid)
    · have hc : ¬ ((d.id == c'.id) = true) := by
        simp only [beq_iff_eq]; rw [hid]; exact hd
      rw [if_neg hc, List.find?_cons_of_neg _ (by simp [hd])]
      rw [List.find?_cons_of_neg _ (by simp [hd])] at h
      exact ih h

theorem findCall_saveCall_ne {calls : List CallRec} {cid : Nat} {c' : CallRec}
    (hid : c'.id ≠ cid) :
    findCall (saveCall calls c') cid = findCall calls cid := by
  unfold findCall saveCall
  induction calls with
  | nil => rfl
  | cons d t ih =>
    rw [List.map_cons]
    by_cases hd : d.id = c'.id
    · have hdcid : ¬ d.id = cid := by rw [hd]; exact hid
      rw [if_pos (beq_iff_eq.mpr hd),
          List.find?_cons_of_neg _ (by simp [hid]),
          List.find?_cons_of_neg _ (by simp [hdcid])]
      exact ih
    · rw [if_neg (by simp only [beq_iff_eq]; exact hd)]
      by_cases hcd : d.id = cid
      · rw [List.find?_cons_of_pos _ (by simp [hcd]),
            List.find?_cons_of_pos _ (by simp [hcd])]
      · rw [List.find?_cons_of_neg _ (by simp [hcd]),
            List.find?_cons_of_neg _ (by simp [hcd])]
        exact ih

/-! ## Handler-level facts -/

theorem acceptCall_notRegistered {s : ServerState} {sid cid now : Nat}
    (h : lookupKey s.connectedUsers sid = none) :
    acceptCall s sid cid now = (s, []) := by
  simp [acceptCall, h]

theorem acceptCall_notStaff {s : ServerState} {sid cid now : Nat} {u : UserRec}
    (h : lookupKey s.connectedUsers sid = some u) (hr : u.role ≠ Role.staff) :
    acceptCall s sid cid now = (s, []) := by
  simp only [acceptCall, h]
  rw [if_pos hr]

theorem acceptCall_noop_of_notWaiting {s : ServerState} (sid : Nat) {cid : Nat}
    (now : Nat) {c : CallRec} (hc : findCall s.calls cid = some c)
    (hst : c.status ≠ Status.waiting) : acceptCall s sid cid now = (s, []) := by
  rcases h1 : lookupKey s.connectedUsers sid with _ | u
  · exact acceptCall_notRegistered h1
  · by_cases hr : u.role = Role.staff
    · simp only [acceptCall, h1, hc]
      rw [if_neg (by simp [hr]), if_pos hst]
    · exact acceptCall_notStaff h1 hr

theorem acceptCall_success {s : ServerState} {sid cid : Nat} (now : Nat)
    {u : UserRec} {c : CallRec} (hu : lookupKey s.connectedUsers sid = some u)
    (hr : u.role = Role.staff) (hc : findCall s.calls cid = some c)
    (hw : c.status = Status.waiting) :
    (acceptCall s sid cid now).1.calls =
      saveCall s.calls { c with
                         staffId := some u.uid, status := Status.inProgress,
                         startTime := some now } ∧
    (acceptCall s sid cid now).1.connectedUsers = s.connectedUsers ∧
    Msg.toSocket sid (Event.callStarted cid c.clientId) ∈ (acceptCall s sid cid now).2 := by
  simp only [acceptCall, hu, hc]
  rw [if_neg (by simp [hr]), if_neg (by simp [hw])]
  split
  · exact ⟨rfl, rfl, by simp⟩
  · exact ⟨rfl, rfl, by simp⟩

theorem acceptRound_noop {cid now : Nat} {c : CallRec} {s : ServerState}
    (hc : findCall s.calls cid = some c) (hst : c.status ≠ Status.waiting)
    (l : List Nat) :
    acceptRound cid now s l = (s, l.map (fun _ => ([] : List Msg))) := by
  induction l with
  | nil => rfl
  | cons sid rest ih =>
    have h1 := acceptCall_noop_of_notWaiting sid now hc hst
    simp [acceptRound, h1, ih]

/-- C10: the guard `if (!staffUser || staffUser.role !== 'staff') return;`
runs before anything else in `accept-call`. -/
theorem accept_call_unauthorized_silent_noop (s : ServerState) (sid cid now : Nat)
    (h : lookupKey s.connectedUsers sid = none ∨
         ∃ u, lookupKey s.connectedUsers sid = some u ∧ u.role ≠ Role.staff) :
    acceptCall s sid cid now = (s, []) := by
  rcases h with h | ⟨u, hu, hr⟩
  · exact acceptCall_notRegistered h
  · exact acceptCall_notStaff hu hr

theorem accept_call_unauthorized_silent_noop_witness :
    acceptCall exState1 20 0 100 = (exState1, []) ∧
    acceptCall exState1 77 0 100 = (exState1, []) :=
  ⟨accept_call_unauthorized_silent_noop exState1 20 0 100
      (Or.inr ⟨visitorV, rfl, by decide⟩),
   accept_call_unauthorized_silent_noop exState1 77 0 100 (Or.inl rfl)⟩

/-- C1 counterexample: staff sockets 10 then 11 both accept call 0; the first
succeeds, but the second receives no message whatsoever — the code has no
`CallClaimed` (or any other) response for the loser, it silently returns. -/
theorem accept_race_loser_gets_no_message :
    acceptCall (acceptCall exState1 10 0 100).1 11 0 101 =
      ((acceptCall exState1 10 0 100).1, []) := by decide

/-- C1 amended: when N ≥ 1 registered staff connections issue `accept-call`
for the same waiting call in any serial order, exactly the first succeeds —
the call becomes `in-progress` bound to the first staff's user id and the
first socket receives `call-started` — and each of the other N−1 accepts is a
silent no-op: it changes nothing and emits no message at all (there is no
`CallClaimed` response in the code). -/
theorem accept_race_first_wins (s : ServerState) (cid now sid₀ : Nat)
    (rest : List Nat) (u₀ : UserRec) (c : CallRec)
    (_hdist : (sid₀ :: rest).Nodup)
    (hstaff : ∀ t ∈ sid₀ :: rest, isRegisteredStaff s t = true)
    (hu : lookupKey s.connectedUsers sid₀ = some u₀)
    (hc : findCall s.calls cid = some c) (hw : c.status = Status.waiting) :
    Msg.toSocket sid₀ (Event.callStarted cid c.clientId) ∈ (acceptCall s sid₀ cid now).2 ∧
    findCall (acceptCall s sid₀ cid now).1.calls cid =
      some { c with
             staffId := some u₀.uid, status := Status.inProgress,
             startTime := some now } ∧
    acceptRound cid now s (sid₀ :: rest) =
      ((acceptCall s sid₀ cid now).1,
       (acceptCall s sid₀ cid now).2 :: rest.map (fun _ => ([] : List Msg))) := by
  have hr : u₀.role = Role.staff := by
    have h0 := hstaff sid₀ (by simp)
    unfold isRegisteredStaff at h0
    rw [hu] at h0
    exact beq_iff_eq.mp h0
  obtain ⟨hcalls, hconn, hmem⟩ := acceptCall_success now hu hr hc hw
  have hid : ({ c with
                staffId := some u₀.uid, status := Status.inProgress,
                startTime := some now } : CallRec).id = cid := (findCall_mem hc).2
  have hfind : findCall (acceptCall s sid₀ cid now).1.calls cid =
      some { c with
             staffId := some u₀.uid, status := Status.inProgress,
             startTime := some now } := by
    rw [hcalls]; exact findCall_saveCall_self hc hid
  refine ⟨hmem, hfind, ?_⟩
  simp only [acceptRound]
  rw [acceptRound_noop hfind (by simp)]

theorem accept_race_first_wins_witness :
    Msg.toSocket 10 (Event.callStarted 0 0) ∈ (acceptCall exState1 10 0 100).2 ∧
    findCall (acceptCall exState1 10 0 100).1.calls 0 =
      some { callW with
             staffId := some 1, status := Status.inProgress,
             startTime := some 100 } ∧
    acceptRound 0 100 exState1 [10, 11] =
      ((acceptCall exState1 10 0 100).1,
       (acceptCall exState1 10 0 100).2 :: [11].map (fun _ => ([] : List Msg))) :=
  accept_race_first_wins exState1 0 100 10 [11] staffA callW
    (by decide) (by decide) (by decide) (by decide) (by decide)

/-! ## Map lookup lemmas -/

theorem lookupKey_setKey_self {α : Type} (l : List (Nat × α)) (k : Nat) (v : α) :
    lookupKey (setKey l k v) k = some v := by
  unfold lookupKey setKey
  split
  · rename_i hs
    rw [List.find?_map]
    have hpred : ((fun q : Nat × α => q.1 == k) ∘
        (fun p : Nat × α => if p.1 == k then (k, v) else p)) =
        (fun p : Nat × α => p.1 == k) := by
      funext p
      simp only [Function.comp_apply]
      by_cases hp : (p.1 == k) = true
      · rw [if_pos hp, hp]
        exact beq_self_eq_true k
      · rw [if_neg hp]
    rw [hpred]
    rcases hf : l.find? (fun p => p.1 == k) with _ | e
    · rw [hf] at hs; simp at hs
    · have he : (if e.1 == k then (k, v) else e) = (k, v) :=
        if_pos (List.find?_some hf)
      rw [hf]
      simp only [Option.map_some']
      rw [he]
  · rename_i hs
    rw [Option.not_isSome_iff_eq_none] at hs
    rw [List.find?_append, hs, Option.none_or]
    simp

theorem lookupKey_eraseKey {α : Type} (l : List (Nat × α)) (k : Nat) :
    lookupKey (eraseKey l k) k = none := by
  unfold lookupKey eraseKey
  rw [List.find?_eq_none.mpr]
  · rfl
  · intro p hp
    have h2 := (List.mem_filter.1 hp).2
    simp only [bne_iff_ne, ne_eq] at h2
    simp [h2]

theorem lookupKey_some_mem {α : Type} {l : List (Nat × α)} {k : Nat} {v : α}
    (h : lookupKey l k = some v) : (k, v) ∈ l := by
  unfold lookupKey at h
  rcases hf : l.find? (fun p => p.1 == k) with _ | e
  · rw [hf] at h; simp at h
  · rw [hf] at h
    simp only [Option.map_some', Option.some.injEq] at h
    have he := List.mem_of_find?_eq_some hf
    have hk := List.find?_some hf
    simp only [beq_iff_eq] at hk
    have : e = (k, v) := by cases e; simp_all
    exact this ▸ he

/-! ## call-decision handler facts -/

theorem callDecision_notRegistered {s : ServerState} {sid cid now : Nat}
    {d : Decision} {notes : String}
    (h : lookupKey s.connectedUsers sid = none) :
    callDecision s sid cid d notes now = (s, []) := by
  simp [callDecision, h]

theorem callDecision_notStaff {s : ServerState} {sid cid now : Nat}
    {d : Decision} {notes : String} {u : UserRec}
    (h : lookupKey s.connectedUsers sid = some u) (hr : u.role ≠ Role.staff) :
    callDecision s sid cid d notes now = (s, []) := by
  simp only [callDecision, h]
  rw [if_pos hr]

theorem callDecision_noStaffBound {s : ServerState} {sid cid now : Nat}
    {d : Decision} {notes : String} {u : UserRec} {c : CallRec}
    (h : lookupKey s.connectedUsers sid = some u) (hr : u.role = Role.staff)
    (hc : findCall s.calls cid = some c) (hn : c.staffId = none) :
    callDecision s sid cid d notes now =
      (s, [Msg.toSocket sid (Event.errorMsg "Failed to save decision")]) := by
  simp only [callDecision, h, hc, hn]
  rw [if_neg (by simp [hr])]

theorem callDecision_notOwner {s : ServerState} {sid cid now : Nat}
    {d : Decision} {notes : String} {u : UserRec} {c : CallRec} {oid : Nat}
    (h : lookupKey s.connectedUsers sid = some u) (hr : u.role = Role.staff)
    (hc : findCall s.calls cid = some c) (ho : c.staffId = some oid)
    (hne : oid ≠ u.uid) :
    callDecision s sid cid d notes now = (s, []) := by
  simp only [callDecision, h, hc, ho]
  rw [if_neg (by simp [hr]), if_pos hne]

theorem callDecision_success {s : ServerState} {sid cid now : Nat}
    {d : Decision} {notes : String} {u : UserRec} {c : CallRec}
    (h : lookupKey s.connectedUsers sid = some u) (hr : u.role = Role.staff)
    (hc : findCall s.calls cid = some c) (ho : c.staffId = some u.uid) :
    callDecision s sid cid d notes now =
      ({ s with
         calls := saveCall s.calls { c with
           status := Status.completed, endTime := some now, decision := d,
           notes := some notes,
           duration := c.startTime.map (fun st => (now - st) / 1000) } },
       (match s.connectedUsers.find? (fun p => p.2.uid == c.clientId) with
        | some entry => [Msg.toSocket entry.1 (Event.callCompleted d notes)]
        | none => []) ++ [Msg.toSocket sid (Event.decisionSaved cid d)]) := by
  simp only [callDecision, h, hc, ho]
  rw [if_neg (by simp [hr]), if_neg (by simp)]

/-! ## disconnect handler facts -/

theorem disconnectSocket_no_messages (s : ServerState) (sid : Nat) :
    (disconnectSocket s sid).2 = [] := by
  unfold disconnectSocket
  split <;> rfl

theorem disconnectSocket_waiting_cleanup {s : ServerState} {sid : Nat}
    {doc : CallRec} (hdoc : lookupKey s.waitingCalls sid = some doc) :
    (disconnectSocket s sid).1.calls =
      saveCall s.calls { doc with status := Status.rejected } ∧
    lookupKey (disconnectSocket s sid).1.waitingCalls sid = none := by
  unfold disconnectSocket
  rw [hdoc]
  exact ⟨rfl, lookupKey_eraseKey _ _⟩

theorem disconnectSocket_frame {s : ServerState} {sid cid : Nat} {c : CallRec}
    (hc : findCall s.calls cid = some c)
    (hnone : ∀ p ∈ s.waitingCalls, p.2.id ≠ cid) :
    findCall (disconnectSocket s sid).1.calls cid = some c := by
  unfold disconnectSocket
  rcases hd : lookupKey s.waitingCalls sid with _ | doc
  · exact hc
  · have hmem := lookupKey_some_mem hd
    have hne : ({ doc with status := Status.rejected } : CallRec).id ≠ cid :=
      hnone (sid, doc) hmem
    rw [findCall_saveCall_ne hne]
    exact hc

/-! ## The claims -/

/-- C2 counterexample: call 0 is already `completed` (terminal), yet its bound
staff re-issues `call-decision` at time 9000 and the code mutates the stored
record — endTime, decision, notes and duration all change, and
`decision-saved` is emitted instead of any `InvalidState` response. -/
theorem terminal_call_redecided :
    (callDecision exState3 10 0 Decision.rejected "changed" 9000).1.calls =
      [{ callDone with
         status := Status.completed, endTime := some 9000,
         decision := Decision.rejected, notes := some "changed",
         duration := some 8 }] ∧
    (callDecision exState3 10 0 Decision.rejected "changed" 9000).2 =
      [Msg.toSocket 10 (Event.decisionSaved 0 Decision.rejected)] ∧
    callDone.endTime = some 2000 := by decide

/-- C2 amended: for a call in a terminal state (`completed` or `rejected`):
`accept-call` is a silent no-op — no state change and no message, in
particular no `InvalidState` response, which does not exist in the code;
`call-decision` is likewise a silent no-op when issued by a registered staff
connection other than the bound one, and a call with no bound staff produces
only a generic error; but when the bound staff re-issues `call-decision` on a
terminal call, the code mutates the record again — endTime, decision, notes
and duration are overwritten. -/
theorem terminal_state_behaviour (s : ServerState) (cid : Nat) (c : CallRec)
    (hc : findCall s.calls cid = some c)
    (hterm : c.status = Status.completed ∨ c.status = Status.rejected) :
    (∀ sid now, acceptCall s sid cid now = (s, [])) ∧
    (∀ sid now d notes u oid, lookupKey s.connectedUsers sid = some u →
      u.role = Role.staff → c.staffId = some oid → oid ≠ u.uid →
      callDecision s sid cid d notes now = (s, [])) ∧
    (∀ sid now d notes u, lookupKey s.connectedUsers sid = some u →
      u.role = Role.staff → c.staffId = some u.uid →
      findCall (callDecision s sid cid d notes now).1.calls cid =
        some { c with
               status := Status.completed, endTime := some now,
               decision := d, notes := some notes,
               duration := c.startTime.map (fun st => (now - st) / 1000) }) := by
  have hnw : c.status ≠ Status.waiting := by
    rcases hterm with h | h <;> simp [h]
  refine ⟨fun sid now => acceptCall_noop_of_notWaiting sid now hc hnw, ?_, ?_⟩
  · intro sid now d notes u oid hu hr ho hne
    exact callDecision_notOwner hu hr hc ho hne
  · intro sid now d notes u hu hr ho
    rw [callDecision_success hu hr hc ho]
    exact findCall_saveCall_self hc (findCall_mem hc).2

theorem terminal_state_behaviour_witness :
    acceptCall exState3 10 0 5000 = (exState3, []) ∧
    findCall (callDecision exState3 10 0 Decision.accepted "done" 9000).1.calls 0 =
      some { callDone with
             status := Status.completed, endTime := some 9000,
             decision := Decision.accepted, notes := some "done",
             duration := some 8 } := by
  have h := terminal_state_behaviour exState3 0 callDone (by decide)
    (Or.inl (by decide))
  exact ⟨h.1 10 5000,
    h.2.2 10 9000 Decision.accepted "done" staffA (by decide) (by decide) (by decide)⟩

/-- C3 counterexample: call 0 is `in-progress` with its visitor on socket 20
(no longer in `waitingCalls`); the visitor disconnects, yet the call is left
`in-progress` untouched and nobody is notified — the claimed transition to
`rejected` with a notification does not happen. -/
theorem disconnect_inprogress_not_rejected :
    (disconnectSocket exState4 20).1.calls = [callInProg] ∧
    (disconnectSocket exState4 20).2 = [] ∧
    callInProg.status = Status.inProgress := by decide

/-- C3 amended: the disconnect handler emits no message to anyone, ever.  Only
a `waitingCalls` entry triggers call cleanup: that stored document is saved
with status `rejected` and its entry removed.  A call not referenced by any
`waitingCalls` entry — in particular any `in-progress` call in a reachable
state — is left completely unchanged by a disconnect. -/
theorem disconnect_cleanup_behaviour (s : ServerState) (sid : Nat) :
    ((disconnectSocket s sid).2 = []) ∧
    (∀ doc, lookupKey s.waitingCalls sid = some doc →
      (disconnectSocket s sid).1.calls =
        saveCall s.calls { doc with status := Status.rejected } ∧
      lookupKey (disconnectSocket s sid).1.waitingCalls sid = none) ∧
    (∀ cid c, findCall s.calls cid = some c →
      (∀ p ∈ s.waitingCalls, p.2.id ≠ cid) →
      findCall (disconnectSocket s sid).1.calls cid = some c) := by
  refine ⟨disconnectSocket_no_messages s sid, ?_, ?_⟩
  · intro doc hdoc
    exact disconnectSocket_waiting_cleanup hdoc
  · intro cid c hc hnone
    exact disconnectSocket_frame hc hnone

theorem disconnect_cleanup_behaviour_witness :
    (disconnectSocket exState1 20).2 = [] ∧
    (disconnectSocket exState1 20).1.calls =
      [{ callW with status := Status.rejected }] ∧
    lookupKey (disconnectSocket exState1 20).1.waitingCalls 20 = none ∧
    findCall (disconnectSocket exState4 20).1.calls 0 = some callInProg := by
  have h1 := (disconnect_cleanup_behaviour exState1 20).2.1 callW (by decide)
  exact ⟨(disconnect_cleanup_behaviour exState1 20).1, h1.1, h1.2,
    (disconnect_cleanup_behaviour exState4 20).2.2 0 callInProg
      (by decide) (by decide)⟩

/-- C4 counterexample: sockets 10 and 20 are live but bound by no call at all
(the call collection of `exState5` is empty and neither is a staff/visitor of
any `in-progress` call); still the server forwards socket 10's offer to
socket 20, which receives it — nothing is checked before forwarding. -/
theorem signaling_forwarded_without_binding :
    onOffer exState5 10 20 "sdp-offer" =
      (exState5, [Msg.toSocket 20 (Event.offerFwd "sdp-offer" 10)]) ∧
    exState5.calls = [] ∧
    receives exState5.liveSockets
      (Msg.toSocket 20 (Event.offerFwd "sdp-offer" 10)) 20 = true := by decide

/-- C4 amended: the signaling handlers perform no check whatsoever: every
offer/answer/ice-candidate is forwarded to the stated target with the payload
intact and `from` set to the sender's socket id, regardless of registration,
liveness, or any call binding, and the state is unchanged.  Delivery of the
forwarded message then occurs precisely when the target socket is live. -/
theorem signaling_relay_unconditional (s : ServerState) (sid target : Nat)
    (payload : String) :
    onOffer s sid target payload =
      (s, [Msg.toSocket target (Event.offerFwd payload sid)]) ∧
    onAnswer s sid target payload =
      (s, [Msg.toSocket target (Event.answerFwd payload sid)]) ∧
    onIceCandidate s sid target payload =
      (s, [Msg.toSocket target (Event.iceCandidateFwd payload sid)]) ∧
    (∀ ev : Event, receives s.liveSockets (Msg.toSocket target ev) target =
      s.liveSockets.contains target) :=
  ⟨rfl, rfl, rfl, fun _ => by simp [receives]⟩

/-- C5 counterexample: call 0 is `in-progress` bound to staff 1; staff 2
(socket 11, a registered staff connection that is not the owner) issues
`call-decision` and receives no `NotOwner` response — nothing at all is
emitted, and nothing changes. -/
theorem record_decision_nonowner_silent :
    callDecision exState4 11 0 Decision.accepted "mine" 9000 =
      (exState4, []) := by decide

/-- C5 amended: `call-decision` succeeds iff the caller is a registered staff
connection whose user id equals the call's bound `staffId` — the call's
status is never checked.  On success the call becomes `completed`,
`endTime := now`, `duration = ⌊(endTime − startTime) / 1000⌋` seconds, the
bound client's socket (when connected) receives `call-completed`, and the
staff socket receives `decision-saved`.  A registered staff caller that is
not the bound one gets no response at all (there is no `NotOwner` event), a
call with no bound staff yields only a generic error, and in every
non-success case the state is unchanged. -/
theorem record_decision_behaviour (s : ServerState) (cid now : Nat)
    (d : Decision) (notes : String) (u : UserRec) (c : CallRec) (sid : Nat)
    (hu : lookupKey s.connectedUsers sid = some u) (hr : u.role = Role.staff)
    (hc : findCall s.calls cid = some c) :
    (c.staffId = some u.uid →
      callDecision s sid cid d notes now =
        ({ s with
           calls := saveCall s.calls { c with
             status := Status.completed, endTime := some now, decision := d,
             notes := some notes,
             duration := c.startTime.map (fun st => (now - st) / 1000) } },
         (match s.connectedUsers.find? (fun p => p.2.uid == c.clientId) with
          | some entry => [Msg.toSocket entry.1 (Event.callCompleted d notes)]
          | none => []) ++ [Msg.toSocket sid (Event.decisionSaved cid d)])) ∧
    (∀ oid, c.staffId = some oid → oid ≠ u.uid →
      callDecision s sid cid d notes now = (s, [])) ∧
    (c.staffId = none →
      callDecision s sid cid d notes now =
        (s, [Msg.toSocket sid (Event.errorMsg "Failed to save decision")])) := by
  refine ⟨?_, ?_, ?_⟩
  · intro ho
    exact callDecision_success hu hr hc ho
  · intro oid ho hne
    exact callDecision_notOwner hu hr hc ho hne
  · intro hn
    exact callDecision_noStaffBound hu hr hc hn

theorem record_decision_behaviour_witness :
    callDecision exState4 10 0 Decision.accepted "resolved" 61000 =
      ({ exState4 with
         calls := [{ callInProg with
           status := Status.completed, endTime := some 61000,
           decision := Decision.accepted, notes := some "resolved",
           duration := some 60 }] },
       [Msg.toSocket 20 (Event.callCompleted Decision.accepted "resolved"),
        Msg.toSocket 10 (Event.decisionSaved 0 Decision.accepted)]) :=
  (record_decision_behaviour exState4 0 61000 Decision.accepted "resolved"
    staffA callInProg 10 (by decide) (by decide) (by decide)).1 (by decide)

/-- C6 counterexample: socket 20 is a registered visitor and socket 30 is a
live but never-registered connection; a successful call creation broadcasts
`new-call-request` with `io.emit`, and both 20 and 30 receive it, refuting
delivery to registered staff only. -/
theorem new_call_broadcast_reaches_nonstaff :
    (startConversation exState5 20 "Vic" "vic@x" "Support" 500).2 =
      [Msg.broadcast (Event.newCallRequest 0 "Vic" "Support" 500),
       Msg.toSocket 20 (Event.conversationStarted 20 0 "Vic" "Support")] ∧
    receives exState5.liveSockets
      (Msg.broadcast (Event.newCallRequest 0 "Vic" "Support" 500)) 20 = true ∧
    receives exState5.liveSockets
      (Msg.broadcast (Event.newCallRequest 0 "Vic" "Support" 500)) 30 = true := by
  decide

/-- C6 amended: on every successful creation the `new-call-request`
notification is emitted with `io.emit`, which delivers it to every live
socket — registered staff, visitors and unregistered connections alike — and
to nobody else; delivery is not restricted to staff. -/
theorem new_call_broadcast_to_everyone (s : ServerState) (sid : Nat)
    (name email purpose : String) (now : Nat) (hp : purpose ≠ "") :
    Msg.broadcast (Event.newCallRequest s.calls.length name purpose now) ∈
      (startConversation s sid name email purpose now).2 ∧
    (∀ t, receives s.liveSockets
        (Msg.broadcast (Event.newCallRequest s.calls.length name purpose now)) t =
      s.liveSockets.contains t) := by
  constructor
  · unfold startConversation
    rw [if_neg hp]
    simp
  · intro t; rfl

theorem new_call_broadcast_to_everyone_witness :
    Msg.broadcast (Event.newCallRequest 0 "Vic" "Support" 500) ∈
      (startConversation exState5 20 "Vic" "vic@x" "Support" 500).2 ∧
    receives exState5.liveSockets
      (Msg.broadcast (Event.newCallRequest 0 "Vic" "Support" 500)) 30 =
      exState5.liveSockets.contains 30 :=
  ⟨(new_call_broadcast_to_everyone exState5 20 "Vic" "vic@x" "Support" 500
      (by decide)).1,
   (new_call_broadcast_to_everyone exState5 20 "Vic" "vic@x" "Support" 500
      (by decide)).2 30⟩

/-- C7 counterexample: in demo mode (database unreachable) a creation request
with an empty purpose is not validated at all: the demo call is stored with
the empty purpose and `new-call-request` is broadcast. -/
theorem empty_purpose_demo_call_created :
    lookupKey (demoStartConversation exState5 20 "Eve" "eve@x" "" 700).1.demoCalls 20 =
      some { id := 700, clientId := 700, purpose := "", status := Status.waiting,
             staffId := none, startTime := none, endTime := none, duration := none,
             decision := Decision.pending, notes := none, createdAt := 700 } ∧
    Msg.broadcast (Event.newCallRequest 700 "Eve" "" 700) ∈
      (demoStartConversation exState5 20 "Eve" "eve@x" "" 700).2 := by decide

/-- C7 amended: in database mode a creation with an empty (or missing, which
mongoose treats the same for a required string) purpose fails schema
validation at `call.save()`: the requester gets a generic error event, no
call is added to the collection, `waitingCalls` is untouched, and no
broadcast is sent — though the user document may still have been created.  In
demo mode no validation runs: the call is stored with the empty purpose and
the broadcast is sent. -/
theorem empty_purpose_creation (s : ServerState) (sid : Nat)
    (name email : String) (now : Nat) :
    ((startConversation s sid name email "" now).1.calls = s.calls ∧
     (startConversation s sid name email "" now).1.waitingCalls = s.waitingCalls ∧
     (startConversation s sid name email "" now).2 =
       [Msg.toSocket sid (Event.errorMsg "Failed to start conversation")]) ∧
    (lookupKey (demoStartConversation s sid name email "" now).1.demoCalls sid =
       some { id := now, clientId := now, purpose := "",
              status := Status.waiting, staffId := none, startTime := none,
              endTime := none, duration := none, decision := Decision.pending,
              notes := none, createdAt := now } ∧
     Msg.broadcast (Event.newCallRequest now name "" now) ∈
       (demoStartConversation s sid name email "" now).2) := by
  refine ⟨⟨?_, ?_, ?_⟩, ?_, ?_⟩
  · simp [startConversation]
  · simp [startConversation]
  · simp [startConversation]
  · unfold demoStartConversation
    exact lookupKey_setKey_self _ _ _
  · unfold demoStartConversation
    simp

/-- C8: in every state, the waiting-calls query returns exactly the calls
whose status is `waiting`, sorted by creation time ascending (oldest first),
whatever interleaving of creations, acceptances and terminal transitions
produced the state. -/
theorem listWaiting_exact_and_sorted (s : ServerState) :
    (∀ c : CallRec, c ∈ listWaiting s ↔ c ∈ s.calls ∧ c.status = Status.waiting) ∧
    (listWaiting s).Perm (s.calls.filter (fun c => c.status == Status.waiting)) ∧
    (listWaiting s).Sorted callLE := by
  refine ⟨?_, List.perm_insertionSort callLE _, List.sorted_insertionSort callLE _⟩
  intro c
  unfold listWaiting
  rw [List.mem_insertionSort, List.mem_filter]
  simp [beq_iff_eq]

/-! ## The state invariant and its preservation -/

theorem calls_id_nodup {calls : List CallRec}
    (h1 : calls.map CallRec.id = List.range calls.length) :
    (calls.map CallRec.id).Nodup := by
  rw [h1]; exact List.nodup_range _

theorem call_id_lt {calls : List CallRec}
    (h1 : calls.map CallRec.id = List.range calls.length) {c : CallRec}
    (hc : c ∈ calls) : c.id < calls.length := by
  have hm : c.id ∈ calls.map CallRec.id := List.mem_map_of_mem _ hc
  rw [h1] at hm
  exact List.mem_range.mp hm

theorem calls_id_inj {calls : List CallRec}
    (h1 : calls.map CallRec.id = List.range calls.length) {a b : CallRec}
    (ha : a ∈ calls) (hb : b ∈ calls) (hid : a.id = b.id) : a = b :=
  List.inj_on_of_nodup_map (calls_id_nodup h1) ha hb hid

theorem mem_map_setKey {α β : Type} {l : List (Nat × α)} {k : Nat} {v : α}
    {g : Nat × α → β} {x : β} (h : x ∈ (setKey l k v).map g) :
    x = g (k, v) ∨ x ∈ l.map g := by
  rcases List.mem_map.1 h with ⟨q, hq, rfl⟩
  rcases mem_setKey hq with h' | h'
  · left; rw [h']
  · right; exact List.mem_map_of_mem _ h'

theorem setKey_keys_nodup {α : Type} {l : List (Nat × α)} {k : Nat} {v : α}
    (h : (l.map (fun p => p.1)).Nodup) :
    ((setKey l k v).map (fun p => p.1)).Nodup := by
  induction l with
  | nil => simp [setKey]
  | cons p t ih =>
    simp only [List.map_cons, List.nodup_cons] at h
    obtain ⟨hp, ht⟩ := h
    by_cases hk : p.1 = k
    · have hfresh : ∀ q ∈ t, q.1 ≠ k := by
        intro q hq hqk
        rw [hk] at hp
        exact hp (hqk ▸ List.mem_map_of_mem _ hq)
      rw [setKey_cons_eq hk hfresh]
      simp only [List.map_cons, List.nodup_cons]
      exact ⟨hk ▸ hp, ht⟩
    · rw [setKey_cons_ne hk]
      simp only [List.map_cons, List.nodup_cons]
      refine ⟨?_, ih ht⟩
      intro hmem
      rcases mem_map_setKey hmem with heq | hmem'
      · exact hk heq
      · exact hp hmem'

theorem setKey_ids_nodup {l : List (Nat × CallRec)} {k : Nat} {v : CallRec}
    (hkeys : (l.map (fun p => p.1)).Nodup)
    (h : (l.map (fun p : Nat × CallRec => p.2.id)).Nodup)
    (hv : v.id ∉ l.map (fun p : Nat × CallRec => p.2.id)) :
    ((setKey l k v).map (fun p : Nat × CallRec => p.2.id)).Nodup := by
  induction l with
  | nil => simp [setKey]
  | cons p t ih =>
    simp only [List.map_cons, List.nodup_cons] at hkeys h
    obtain ⟨hpk, htk⟩ := hkeys
    obtain ⟨hpi, hti⟩ := h
    simp only [List.map_cons, List.mem_cons, not_or] at hv
    obtain ⟨hv1, hv2⟩ := hv
    by_cases hk : p.1 = k
    · have hfresh : ∀ q ∈ t, q.1 ≠ k := by
        intro q hq hqk
        rw [hk] at hpk
        exact hpk (hqk ▸ List.mem_map_of_mem _ hq)
      rw [setKey_cons_eq hk hfresh]
      simp only [List.map_cons, List.nodup_cons]
      exact ⟨hv2, hti⟩
    · rw [setKey_cons_ne hk]
      simp only [List.map_cons, List.nodup_cons]
      refine ⟨?_, ih htk hti hv2⟩
      intro hmem
      rcases mem_map_setKey hmem with heq | hmem'
      · exact hv1 heq.symm
      · exact hpi hmem'

theorem acceptCall_noCall {s : ServerState} {sid cid now : Nat} {u : UserRec}
    (hu : lookupKey s.connectedUsers sid = some u) (hr : u.role = Role.staff)
    (hc : findCall s.calls cid = none) : acceptCall s sid cid now = (s, []) := by
  simp only [acceptCall, hu, hc]
  rw [if_neg (by simp [hr])]

theorem callDecision_noCall {s : ServerState} {sid cid now : Nat}
    {d : Decision} {notes : String} {u : UserRec}
    (hu : lookupKey s.connectedUsers sid = some u) (hr : u.role = Role.staff)
    (hc : findCall s.calls cid = none) :
    callDecision s sid cid d notes now = (s, []) := by
  simp only [callDecision, hu, hc]
  rw [if_neg (by simp [hr])]

theorem acceptCall_success_cases {s : ServerState} {sid cid : Nat} (now : Nat)
    {u : UserRec} {c : CallRec}
    (hu : lookupKey s.connectedUsers sid = some u) (hr : u.role = Role.staff)
    (hc : findCall s.calls cid = some c) (hw : c.status = Status.waiting) :
    (∃ entry, s.waitingCalls.find? (fun p => p.2.id == cid) = some entry ∧
      acceptCall s sid cid now =
        ({ s with
           calls := saveCall s.calls { c with
             staffId := some u.uid, status := Status.inProgress,
             startTime := some now },
           waitingCalls := eraseKey s.waitingCalls entry.1 },
         [Msg.toSocket entry.1 (Event.callAccepted u.name u.department),
          Msg.toSocket sid (Event.callStarted cid c.clientId)])) ∨
    (s.waitingCalls.find? (fun p => p.2.id == cid) = none ∧
      acceptCall s sid cid now =
        ({ s with
           calls := saveCall s.calls { c with
             staffId := some u.uid, status := Status.inProgress,
             startTime := some now } },
         [Msg.toSocket sid (Event.callStarted cid c.clientId)])) := by
  simp only [acceptCall, hu, hc]
  rw [if_neg (by simp [hr]), if_neg (by simp [hw])]
  rcases hf : s.waitingCalls.find? (fun p => p.2.id == cid) with _ | entry
  · right
    refine ⟨hf, ?_⟩
    rw [hf]
  · left
    refine ⟨entry, hf, ?_⟩
    rw [hf]

theorem inv_connectSocket {s : ServerState} (hInv : Inv s) (sid : Nat) :
    Inv (connectSocket s sid) := hInv

theorem inv_staffLogin {s : ServerState} (hInv : Inv s) (sid : Nat)
    (email : String) : Inv (staffLogin s sid email).1 := by
  unfold staffLogin
  split
  · exact hInv
  · exact hInv

theorem inv_demoStartConversation {s : ServerState} (hInv : Inv s) (sid : Nat)
    (name email purpose : String) (now : Nat) :
    Inv (demoStartConversation s sid name email purpose now).1 := hInv

theorem inv_startConversation {s : ServerState} (hInv : Inv s) (sid : Nat)
    (name email purpose : String) (now : Nat) :
    Inv (startConversation s sid name email purpose now).1 := by
  obtain ⟨h1, h2, h3, h4, h5⟩ := hInv
  unfold startConversation
  by_cases hp : purpose = ""
  · rw [if_pos hp]
    exact ⟨h1, h2, h3, h4, h5⟩
  · rw [if_neg hp]
    have hfreshid : (s.calls.length : Nat) ∉
        s.waitingCalls.map (fun p : Nat × CallRec => p.2.id) := by
      intro hmem
      rcases List.mem_map.1 hmem with ⟨p, hpm, hpid⟩
      rcases h2 p hpm with ⟨c₀, hc₀, hcid₀, _⟩
      have hlt : c₀.id < s.calls.length := call_id_lt h1 hc₀
      rw [hcid₀, hpid] at hlt
      exact lt_irrefl _ hlt
    refine ⟨?_, ?_, ?_, ?_, ?_⟩
    · rw [List.map_append, h1, List.length_append]
      simp [List.range_succ]
    · intro p hp'
      rcases mem_setKey hp' with heq | hmem
      · refine ⟨_, List.mem_append_right _ (List.mem_singleton_self _), ?_, ?_⟩
        · rw [heq]
        · rfl
      · rcases h2 p hmem with ⟨c₀, hc₀, hcid₀, hw₀⟩
        exact ⟨c₀, List.mem_append_left _ hc₀, hcid₀, hw₀⟩
    · exact setKey_keys_nodup h3
    · exact setKey_ids_nodup h3 h4 hfreshid
    · intro c hc hw
      rcases List.mem_append.1 hc with hmem | hmem
      · exact h5 c hmem hw
      · rw [List.mem_singleton.1 hmem]

theorem inv_acceptCall {s : ServerState} (hInv : Inv s) (sid cid now : Nat) :
    Inv (acceptCall s sid cid now).1 := by
  obtain ⟨h1, h2, h3, h4, h5⟩ := hInv
  rcases hu : lookupKey s.connectedUsers sid with _ | u
  · rw [acceptCall_notRegistered hu]; exact ⟨h1, h2, h3, h4, h5⟩
  by_cases hr : u.role = Role.staff
  case neg => rw [acceptCall_notStaff hu hr]; exact ⟨h1, h2, h3, h4, h5⟩
  rcases hc : findCall s.calls cid with _ | c
  · rw [acceptCall_noCall hu hr hc]; exact ⟨h1, h2, h3, h4, h5⟩
  by_cases hw : c.status = Status.waiting
  case neg => rw [acceptCall_noop_of_notWaiting sid now hc hw]; exact ⟨h1, h2, h3, h4, h5⟩
  have hcid : c.id = cid := (findCall_mem hc).2
  rcases acceptCall_success_cases now hu hr hc hw with
    ⟨entry, hfind, heq⟩ | ⟨hfind, heq⟩
  · rw [heq]
    have hentry := List.mem_of_find?_eq_some hfind
    have hentryid : entry.2.id = cid := by
      have := List.find?_some hfind
      simpa [beq_iff_eq] using this
    refine ⟨?_, ?_, ?_, ?_, ?_⟩
    · rw [saveCall_map_id, saveCall_length, h1]
    · intro p hp'
      have hpm : p ∈ s.waitingCalls := List.mem_of_mem_filter hp'
      have hpkey : p.1 ≠ entry.1 := by
        have := (List.mem_filter.1 hp').2
        simpa [bne_iff_ne] using this
      rcases h2 p hpm with ⟨c₀, hc₀, hcid₀, hw₀⟩
      have hne : c₀.id ≠ cid := by
        intro hideq
        have hpid : p.2.id = entry.2.id := by rw [← hcid₀, hideq, hentryid]
        have : p = entry := List.inj_on_of_nodup_map h4 hpm hentry hpid
        exact hpkey (by rw [this])
      refine ⟨c₀, mem_saveCall_of_ne hc₀ ?_, hcid₀, hw₀⟩
      simpa [hcid] using hne
    · exact ((List.filter_sublist _).map _).nodup h3
    · exact ((List.filter_sublist _).map _).nodup h4
    · intro d hd hdw
      rcases mem_saveCall hd with heq' | hmem
      · rw [heq'] at hdw; simp at hdw
      · exact h5 d hmem hdw
  · rw [heq]
    have hnone := List.find?_eq_none.mp hfind
    refine ⟨?_, ?_, h3, h4, ?_⟩
    · rw [saveCall_map_id, saveCall_length, h1]
    · intro p hpm
      rcases h2 p hpm with ⟨c₀, hc₀, hcid₀, hw₀⟩
      have hne : c₀.id ≠ cid := by
        intro hideq
        have := hnone p hpm
        rw [beq_iff_eq] at this
        exact this (by rw [← hcid₀, hideq])
      refine ⟨c₀, mem_saveCall_of_ne hc₀ ?_, hcid₀, hw₀⟩
      simpa [hcid] using hne
    · intro d hd hdw
      rcases mem_saveCall hd with heq' | hmem
      · rw [heq'] at hdw; simp at hdw
      · exact h5 d hmem hdw

theorem inv_callDecision {s : ServerState} (hInv : Inv s) (sid cid : Nat)
    (d : Decision) (notes : String) (now : Nat) :
    Inv (callDecision s sid cid d notes now).1 := by
  obtain ⟨h1, h2, h3, h4, h5⟩ := hInv
  rcases hu : lookupKey s.connectedUsers sid with _ | u
  · rw [callDecision_notRegistered hu]; exact ⟨h1, h2, h3, h4, h5⟩
  by_cases hr : u.role = Role.staff
  case neg => rw [callDecision_notStaff hu hr]; exact ⟨h1, h2, h3, h4, h5⟩
  rcases hc : findCall s.calls cid with _ | c
  · rw [callDecision_noCall hu hr hc]; exact ⟨h1, h2, h3, h4, h5⟩
  rcases ho : c.staffId with _ | oid
  · rw [callDecision_noStaffBound hu hr hc ho]; exact ⟨h1, h2, h3, h4, h5⟩
  by_cases hown : oid = u.uid
  case neg => rw [callDecision_notOwner hu hr hc ho hown]; exact ⟨h1, h2, h3, h4, h5⟩
  rw [callDecision_success hu hr hc (hown ▸ ho)]
  have hcid : c.id = cid := (findCall_mem hc).2
  refine ⟨?_, ?_, h3, h4, ?_⟩
  · rw [saveCall_map_id, saveCall_length, h1]
  · intro p hpm
    rcases h2 p hpm with ⟨c₀, hc₀, hcid₀, hw₀⟩
    have hne : c₀.id ≠ cid := by
      intro hideq
      have hceq : c₀ = c := calls_id_inj h1 hc₀ (findCall_mem hc).1 (by rw [hideq, hcid])
      have : c.staffId = none := h5 c (findCall_mem hc).1 (hceq ▸ hw₀)
      rw [ho] at this
      exact Option.noConfusion this
    refine ⟨c₀, mem_saveCall_of_ne hc₀ ?_, hcid₀, hw₀⟩
    simpa [hcid] using hne
  · intro e he hew
    rcases mem_saveCall he with heq' | hmem
    · rw [heq'] at hew; simp at hew
    · exact h5 e hmem hew

theorem inv_disconnectSocket {s : ServerState} (hInv : Inv s) (sid : Nat) :
    Inv (disconnectSocket s sid).1 := by
  obtain ⟨h1, h2, h3, h4, h5⟩ := hInv
  unfold disconnectSocket
  rcases hd : lookupKey s.waitingCalls sid with _ | doc
  · exact ⟨h1, h2, h3, h4, h5⟩
  have hdocmem := lookupKey_some_mem hd
  refine ⟨?_, ?_, ?_, ?_, ?_⟩
  · rw [saveCall_map_id, saveCall_length, h1]
  · intro p hp'
    have hpm : p ∈ s.waitingCalls := List.mem_of_mem_filter hp'
    have hpkey : p.1 ≠ sid := by
      have := (List.mem_filter.1 hp').2
      simpa [bne_iff_ne] using this
    rcases h2 p hpm with ⟨c₀, hc₀, hcid₀, hw₀⟩
    have hne : c₀.id ≠ doc.id := by
      intro hideq
      have hpid : p.2.id = ((sid, doc) : Nat × CallRec).2.id := by
        rw [← hcid₀, hideq]
      have : p = (sid, doc) := List.inj_on_of_nodup_map h4 hpm hdocmem hpid
      exact hpkey (by rw [this])
    exact ⟨c₀, mem_saveCall_of_ne hc₀ hne, hcid₀, hw₀⟩
  · exact ((List.filter_sublist _).map _).nodup h3
  · exact ((List.filter_sublist _).map _).nodup h4
  · intro e he hew
    rcases mem_saveCall he with heq' | hmem
    · rw [heq'] at hew; simp at hew
    · exact h5 e hmem hew

theorem inv_applyAct {s : ServerState} (hInv : Inv s) (a : Act) :
    Inv (applyAct s a).1 := by
  cases a with
  | connect sid => exact inv_connectSocket hInv sid
  | login sid email => exact inv_staffLogin hInv sid email
  | startConv sid name email purpose now =>
      exact inv_startConversation hInv sid name email purpose now
  | demoStartConv sid name email purpose now =>
      exact inv_demoStartConversation hInv sid name email purpose now
  | accept sid callId now => exact inv_acceptCall hInv sid callId now
  | decide sid callId d notes now => exact inv_callDecision hInv sid callId d notes now
  | offer sid target payload => exact hInv
  | answer sid target payload => exact hInv
  | ice sid target payload => exact hInv
  | leave sid => exact inv_disconnectSocket hInv sid

theorem inv_initState (users0 : List UserRec) : Inv (initState users0) := by
  refine ⟨rfl, ?_, ?_, ?_, ?_⟩ <;> simp [initState]

theorem reachable_inv {s : ServerState} (h : Reachable s) : Inv s := by
  rcases h with ⟨users0, acts, rfl⟩
  have : ∀ (acts : List Act) (t : ServerState), Inv t → Inv (run t acts) := by
    intro acts
    induction acts with
    | nil => intro t ht; exact ht
    | cons a rest ih => intro t ht; exact ih _ (inv_applyAct ht a)
  exact this acts _ (inv_initState users0)

/-- C9: in every reachable state, a successful acceptance removes the
visitor's `waitingCalls` entry — afterwards no entry references the accepted
call — and consequently a call that is `in-progress` is untouched by any
subsequent disconnect: its stored record (status, staffId, decision, notes,
startTime, endTime, duration, all fields) is exactly the same afterwards. -/
theorem accept_unqueues_and_disconnect_preserves_inprogress
    (s : ServerState) (hreach : Reachable s) :
    (∀ sid cid now u c, lookupKey s.connectedUsers sid = some u →
      u.role = Role.staff → findCall s.calls cid = some c →
      c.status = Status.waiting →
      ∀ p ∈ (acceptCall s sid cid now).1.waitingCalls, p.2.id ≠ cid) ∧
    (∀ cid c, findCall s.calls cid = some c → c.status = Status.inProgress →
      ∀ sid, findCall (disconnectSocket s sid).1.calls cid = some c) := by
  obtain ⟨h1, h2, h3, h4, h5⟩ := reachable_inv hreach
  constructor
  · intro sid cid now u c hu hr hc hw p hp hpid
    rcases acceptCall_success_cases now hu hr hc hw with
      ⟨entry, hfind, heq⟩ | ⟨hfind, heq⟩
    · rw [heq] at hp
      have hpm : p ∈ s.waitingCalls := List.mem_of_mem_filter hp
      have hpkey : p.1 ≠ entry.1 := by
        have := (List.mem_filter.1 hp).2
        simpa [bne_iff_ne] using this
      have hentry := List.mem_of_find?_eq_some hfind
      have hentryid : entry.2.id = cid := by
        have := List.find?_some hfind
        simpa [beq_iff_eq] using this
      have : p = entry :=
        List.inj_on_of_nodup_map h4 hpm hentry (by rw [hpid, hentryid])
      exact hpkey (by rw [this])
    · rw [heq] at hp
      have := List.find?_eq_none.mp hfind p hp
      rw [beq_iff_eq] at this
      exact this hpid
  · intro cid c hc hip sid
    have hnone : ∀ p ∈ s.waitingCalls, p.2.id ≠ cid := by
      intro p hpm hpid
      rcases h2 p hpm with ⟨c₀, hc₀, hcid₀, hw₀⟩
      have hceq : c₀ = c := calls_id_inj h1 hc₀ (findCall_mem hc).1
        (by rw [hcid₀, hpid, (findCall_mem hc).2])
      rw [hceq] at hw₀
      rw [hw₀] at hip
      exact Status.noConfusion hip
    exact disconnectSocket_frame hc hnone

theorem accept_unqueues_and_disconnect_preserves_inprogress_witness :
    callDoc2.id ≠ 1 ∧
    findCall (disconnectSocket sC9 20).1.calls 0 = some callRec0 := by
  have h := accept_unqueues_and_disconnect_preserves_inprogress sC9
    ⟨[staffC], traceC9, rfl⟩
  refine ⟨?_, ?_⟩
  · exact h.1 10 1 400 staffC callRec1 (by decide) (by decide) (by decide)
      (by decide) (22, callDoc2) (by decide)
  · exact h.2 0 callRec0 (by decide) (by decide) 20

end RexBot
